import Mathlib

/-!
Verification of the BMP scanline-streaming decoder in
`Adafruit_ImageReader.cpp` (functions `coreBMP` and `bmpDimensions`).

The decoder is shallowly embedded as an executable state machine: the
storage stream is a byte oracle, machine integers are modelled as `Nat`/`Int`
with explicit wrapping where 32-bit overflow matters, and every externally
visible action (stream open/close/seek/read, display transaction begin/end,
batched pixel writes, per-pixel buffer fetches) is recorded in an event
trace so that temporal and safety properties can be stated over traces.
-/

namespace ImageReader

/-- A storage stream: byte oracle from absolute position to byte value.
Values are reduced mod 256 at every use, mirroring `uint8_t` reads. -/
abbrev Stream := Nat → Nat

/-- Byte read from the stream at position `i` (always < 256). -/
def byteAt (s : Stream) (i : Nat) : Nat := s i % 256

/-- Little-endian 16-bit read at position `p`, as in `readLE16`. -/
def readLE16At (s : Stream) (p : Nat) : Nat :=
  byteAt s p + 256 * byteAt s (p + 1)

/-- Little-endian 32-bit read at position `p`, as in `readLE32`. -/
def readLE32At (s : Stream) (p : Nat) : Nat :=
  byteAt s p + 256 * byteAt s (p + 1) + 65536 * byteAt s (p + 2) +
    16777216 * byteAt s (p + 3)

/-- Reinterpret an unsigned 32-bit value as a signed `int32_t`
(assignment of `readLE32()` to an `int` variable). -/
def toInt32 (v : Nat) : Int :=
  if v < 2 ^ 31 then (v : Int) else (v : Int) - 2 ^ 32

/-- Two's-complement wraparound of an `Int` into the `int32_t` range,
modelling 32-bit signed overflow (e.g. negating `INT32_MIN`). -/
def wrap32 (v : Int) : Int := (v + 2 ^ 31) % 2 ^ 32 - 2 ^ 31

/-- Value of an `Int` converted to `uint32_t` (reduction mod 2^32). -/
def wrapU32 (v : Int) : Nat := (v % 2 ^ 32).toNat

/-- DRAWPIXELS on non-AVR targets: capacity (in pixels) of the TFT batch
buffer `dest`/`tftbuf`. -/
def DRAWPIXELS : Nat := 200

/-- Size in bytes of the BMP transfer buffer `sdbuf` (3 bytes per pixel). -/
def bufSz : Nat := 3 * DRAWPIXELS

/-- BGR-to-565 color conversion performed per pixel in the decode loop:
`((r & 0xF8) << 8) | ((g & 0xFC) << 3) | ((b & 0xF8) >> 3)`. -/
def convert565 (r g b : Nat) : Nat :=
  Nat.lor (Nat.lor (Nat.shiftLeft (Nat.land r 0xF8) 8)
    (Nat.shiftLeft (Nat.land g 0xFC) 3)) (Nat.shiftRight (Nat.land b 0xF8) 3)

/-- Externally visible actions of one decode call, in chronological order. -/
inductive Ev where
  | openF : Ev
  | closeF : Ev
  | seek : Nat → Ev
  | readB : Nat → Nat → Ev
  | startWrite : Ev
  | endWrite : Ev
  | setWindow : Int → Int → Int → Int → Ev
  | writePix : Nat → Ev
  | fetch : Nat → Nat → Ev
  | yieldE : Ev
deriving DecidableEq, Repr

/-- Mutable state of one `coreBMP` invocation. `batch` is the prefix of the
TFT working buffer `dest[0..destidx)` (display sink); `mem` is the canvas
pixel buffer filled by `dest[destidx++]` (memory sink); `screen` is the
sequence of pixels delivered to the display by `writePixels` calls. -/
structure St where
  pos : Nat
  srcidx : Nat
  bufStart : Nat
  batch : List Nat
  mem : List Nat
  screen : List Nat
  txn : Bool
  evs : List Ev
deriving Repr

/-- Per-decode parameters of the scanline loop. -/
structure Cfg where
  s : Stream
  disp : Bool
  loadWidth : Nat
  offset : Nat
  rowSize : Nat
  flip : Bool
  bmpHeight : Int

/-- Pixel-data offset field (bytes 10..13 of the header). -/
def hdrOffset (s : Stream) : Nat := readLE32At s 10

/-- Signed width field (bytes 18..21). -/
def hdrW (s : Stream) : Int := toInt32 (readLE32At s 18)

/-- Signed raw height field (bytes 22..25), before sign normalization. -/
def hdrHRaw (s : Stream) : Int := toInt32 (readLE32At s 22)

/-- Normalized height: `if(bmpHeight < 0) bmpHeight = -bmpHeight;` with
32-bit wraparound of the negation. -/
def normH (hRaw : Int) : Int := if hRaw < 0 then wrap32 (-hRaw) else hRaw

/-- Row-order flag `flip` after normalization: stays `true` (bottom-up)
unless the raw height was negative. -/
def normFlip (hRaw : Int) : Bool := !(decide (hRaw < 0))

/-- Row stride `(bmpWidth * 3 + 3) & ~3` as the `uint32_t` value it is
stored into. -/
def rowSizeOf (w : Int) : Nat :=
  wrapU32 (w * 3 + 3) - wrapU32 (w * 3 + 3) % 4

/-- Header acceptance: BMP signature, one plane, depth 24, no compression.
The 16-bit depth field is assigned to the `uint8_t` variable `depth` before
the comparison, so the code accepts any depth field congruent to 24 mod 256
(the comparison sees only the low byte). -/
def hdrOKb (s : Stream) : Bool :=
  decide (readLE16At s 0 = 0x4D42) && decide (readLE16At s 26 = 1) &&
    decide (readLE16At s 28 % 256 = 24) && decide (readLE32At s 30 = 0)

/-- Byte position of the scanline feeding destination row `r`
(`bmpPos = offset + (bmpHeight - 1 - row) * rowSize` when `flip`, else
`offset + row * rowSize`), in `uint32_t` arithmetic. -/
def rowPos (c : Cfg) (r : Nat) : Nat :=
  wrapU32 ((c.offset : Int) +
    (if c.flip then c.bmpHeight - 1 - (r : Int) else (r : Int)) *
      (c.rowSize : Int))

/-- Refill of the transfer buffer `sdbuf` when `srcidx` has reached its end:
for a display sink the SPI transaction is ended, the chunk is read, the
transaction restarted and any batched pixels flushed; for a memory sink the
chunk is simply read. `srcidx` resets to 0. -/
def refill (c : Cfg) (st : St) : St :=
  if c.disp then
    let st1 : St := { st with txn := false, evs := st.evs ++ [Ev.endWrite] }
    let st2 : St := { st1 with
                      evs := st1.evs ++ [Ev.readB st1.pos bufSz]
                      bufStart := st1.pos
                      pos := st1.pos + bufSz }
    let st3 : St := { st2 with txn := true, evs := st2.evs ++ [Ev.startWrite] }
    let st4 : St :=
      if st3.batch.isEmpty then st3
      else { st3 with
             evs := st3.evs ++ [Ev.writePix st3.batch.length]
             screen := st3.screen ++ st3.batch
             batch := [] }
    { st4 with srcidx := 0 }
  else
    { st with
      evs := st.evs ++ [Ev.readB st.pos bufSz]
      bufStart := st.pos
      pos := st.pos + bufSz
      srcidx := 0 }

/-- Fetch of one pixel from the (non-exhausted) transfer buffer: read the
B, G, R bytes at `srcidx`, convert to 565 and store to the destination. -/
def fetchPx (c : Cfg) (st1 : St) : St :=
  let b := byteAt c.s (st1.bufStart + st1.srcidx)
  let g := byteAt c.s (st1.bufStart + st1.srcidx + 1)
  let r := byteAt c.s (st1.bufStart + st1.srcidx + 2)
  let px := convert565 r g b
  let st2 : St := { st1 with evs := st1.evs ++
    [Ev.fetch st1.srcidx (if c.disp then st1.batch.length else st1.mem.length)] }
  if c.disp then
    { st2 with batch := st2.batch ++ [px], srcidx := st2.srcidx + 3 }
  else
    { st2 with mem := st2.mem ++ [px], srcidx := st2.srcidx + 3 }

/-- One pixel of the column loop: refill `sdbuf` if exhausted, then fetch
and convert one pixel. -/
def colStep (c : Cfg) (st : St) : St :=
  fetchPx c (if bufSz ≤ st.srcidx then refill c st else st)

/-- Column loop over `loadWidth` pixels. -/
def colLoop (c : Cfg) : Nat → St → St
  | 0, st => st
  | n + 1, st => colLoop c n (colStep c st)

/-- Scanline prologue: the per-row `yield()`, then the conditional seek —
performed exactly when the stream position differs from the computed row
position, ending the display transaction first and invalidating the
transfer buffer. -/
def rowPre (c : Cfg) (r : Nat) (st : St) : St :=
  let st0 : St := { st with evs := st.evs ++ [Ev.yieldE] }
  if st0.pos = rowPos c r then st0
  else
    let stA : St := if c.disp then
        { st0 with txn := false, evs := st0.evs ++ [Ev.endWrite] } else st0
    { stA with
      evs := stA.evs ++ [Ev.seek (rowPos c r)]
      pos := rowPos c r
      srcidx := bufSz }

/-- Scanline epilogue (display sink only): flush remaining batched pixels
and end the SPI transaction. -/
def rowEpi (c : Cfg) (st : St) : St :=
  if c.disp then
    let st1 : St :=
      if st.batch.isEmpty then st
      else { st with
             evs := st.evs ++ [Ev.writePix st.batch.length]
             screen := st.screen ++ st.batch
             batch := [] }
    { st1 with txn := false, evs := st1.evs ++ [Ev.endWrite] }
  else st

/-- One full scanline: prologue, column loop, epilogue. -/
def rowStep (c : Cfg) (r : Nat) (st : St) : St :=
  rowEpi c (colLoop c c.loadWidth (rowPre c r st))

/-- Row loop: processes `n` scanlines starting at destination row `r`. -/
def rowLoop (c : Cfg) : Nat → Nat → St → St
  | 0, _, st => st
  | n + 1, r, st => rowLoop c n (r + 1) (rowStep c r st)

/-- Result codes of `ImageReturnCode`. -/
inductive RC where
  | ok : RC
  | errFormat : RC
  | errNotFound : RC
  | errMalloc : RC
deriving DecidableEq, Repr

/-- Canvas-format tag written through the `fmt` out-parameter. -/
inductive CFmt where
  | canvasNone : CFmt
  | canvas16 : CFmt
deriving DecidableEq, Repr

/-- Destination selector: display sink with device size and origin, or
memory sink with an allocation-success oracle. -/
inductive Sink where
  | display : Int → Int → Int → Int → Sink
  | mem : Bool → Sink
deriving Repr

/-- Whether a sink is the display variant. -/
def Sink.isDisp : Sink → Bool
  | Sink.display _ _ _ _ => true
  | Sink.mem _ => false

/-- Outcome of one `coreBMP` call: status code, the canvas dimensions handed
back through `canvas1` (none when never assigned), the `fmt` tag, and the
final machine state (trace and pixel buffers). -/
structure Out where
  status : RC
  canvas : Option (Int × Int)
  fmt : CFmt
  final : St
deriving Repr

/-- Initial state: `srcidx = sizeof sdbuf` forces a refill at first use. -/
def initSt : St :=
  { pos := 0
    srcidx := bufSz
    bufStart := 0
    batch := []
    mem := []
    screen := []
    txn := false
    evs := [] }

/-- Append a `closeF` event (`file.close()`). -/
def closeSt (st : St) : St := { st with evs := st.evs ++ [Ev.closeF] }

/-- Trivial outcome for the paths that never open the stream. -/
def outTrivial (rc : RC) : Out :=
  { status := rc, canvas := none, fmt := CFmt.canvasNone, final := initSt }

/-- Header read events as a function of how far parsing advanced. -/
def hdrReads (p : Nat) : List Ev :=
  [Ev.readB 0 2] ++
    (if 2 < p then [Ev.readB 2 4, Ev.readB 6 4, Ev.readB 10 4, Ev.readB 14 4,
      Ev.readB 18 4, Ev.readB 22 4, Ev.readB 26 2] else []) ++
    (if 28 < p then [Ev.readB 28 2] else []) ++
    (if 30 < p then [Ev.readB 30 4] else [])

/-- State right after the stream was opened and the header consumed up to
position `p`. -/
def stAfterHdr (p : Nat) : St :=
  { pos := p
    srcidx := bufSz
    bufStart := 0
    batch := []
    mem := []
    screen := []
    txn := false
    evs := Ev.openF :: hdrReads p }

/-- Format-rejection exit: close the stream, report `IMAGE_ERR_FORMAT`. -/
def finishErr (st : St) : Out :=
  { status := RC.errFormat
    canvas := none
    fmt := CFmt.canvasNone
    final := closeSt st }

/-- Axis clip of `coreBMP` (both X and Y use the same arithmetic): given
image extent `w`, requested origin `x0` and device extent `devW`, returns
the clipped origin and load extent. -/
def clipAxis (w x0 devW : Int) : Int × Int :=
  let p : Int × Int := if x0 < 0 then (0, w + x0) else (x0, w)
  (p.1, if devW < p.1 + p.2 then devW - p.1 else p.2)

/-- Loop configuration built from the parsed header fields. -/
def mkCfg (s : Stream) (disp : Bool) (lw : Nat) : Cfg :=
  { s := s
    disp := disp
    loadWidth := lw
    offset := hdrOffset s
    rowSize := rowSizeOf (hdrW s)
    flip := normFlip (hdrHRaw s)
    bmpHeight := normH (hdrHRaw s) }

/-- Begin the TFT transaction and declare the address window. -/
def startTxn (x y lw lh : Int) (st : St) : St :=
  { st with txn := true, evs := st.evs ++ [Ev.startWrite, Ev.setWindow x y lw lh] }

/-- Display-sink body of `coreBMP` after a fully accepted header. -/
def coreDisp (s : Stream) (devW devH x0 y0 : Int) (st : St) : Out :=
  let w := hdrW s
  let hh := normH (hdrHRaw s)
  let cx := clipAxis w x0 devW
  let cy := clipAxis hh y0 devH
  if 0 < cx.2 ∧ 0 < cy.2 then
    { status := RC.ok
      canvas := none
      fmt := CFmt.canvasNone
      final := closeSt (rowLoop (mkCfg s true cx.2.toNat) cy.2.toNat 0
        (startTxn cx.1 cy.1 cx.2 cy.2 st)) }
  else
    { status := RC.ok
      canvas := none
      fmt := CFmt.canvasNone
      final := closeSt st }

/-- Memory-sink body of `coreBMP` after a fully accepted header: allocate
the full-size canvas, and only when the load region is nonempty hand the
canvas back and tag it as 16-bit. -/
def coreMem (s : Stream) (allocOk : Bool) (st : St) : Out :=
  let w := hdrW s
  let hh := normH (hdrHRaw s)
  if allocOk then
    if 0 < w ∧ 0 < hh then
      { status := RC.ok
        canvas := some (w, hh)
        fmt := CFmt.canvas16
        final := closeSt (rowLoop (mkCfg s false w.toNat) hh.toNat 0 st) }
    else
      { status := RC.ok
        canvas := none
        fmt := CFmt.canvasNone
        final := closeSt st }
  else
    { status := RC.errMalloc
      canvas := none
      fmt := CFmt.canvasNone
      final := closeSt st }

/-- Decode body once the stream is open: nested header checks exactly as in
the source (`signature`, then `planes`, then `depth`, then `compression`);
any failure closes the stream and returns `IMAGE_ERR_FORMAT`. The depth
comparison sees the 16-bit field truncated through the `uint8_t` variable
`depth`, hence the mod 256. -/
def coreOpened (s : Stream) (sink : Sink) : Out :=
  if readLE16At s 0 = 0x4D42 then
    if readLE16At s 26 = 1 then
      if readLE16At s 28 % 256 = 24 then
        if readLE32At s 30 = 0 then
          match sink with
          | Sink.display devW devH x0 y0 => coreDisp s devW devH x0 y0 (stAfterHdr 34)
          | Sink.mem allocOk => coreMem s allocOk (stAfterHdr 34)
        else finishErr (stAfterHdr 34)
      else finishErr (stAfterHdr 30)
    else finishErr (stAfterHdr 28)
  else finishErr (stAfterHdr 2)

/-- Model of `coreBMP`: off-screen early exit (display only, before any
stream I/O), stream open, header parse, decode body. `openOk` tells
whether `SD.open` succeeds. -/
def coreBMP (s : Stream) (openOk : Bool) (sink : Sink) : Out :=
  match sink with
  | Sink.display devW devH x0 y0 =>
    if devW ≤ x0 ∨ devH ≤ y0 then outTrivial RC.ok
    else if openOk then coreOpened s (Sink.display devW devH x0 y0)
    else outTrivial RC.errNotFound
  | Sink.mem allocOk =>
    if openOk then coreOpened s (Sink.mem allocOk)
    else outTrivial RC.errNotFound

/-- Model of `bmpDimensions`: reduced parse returning the width field and
the sign-normalized height, checking only the signature. -/
def bmpDimensions (s : Stream) (openOk : Bool) : RC × Option Int × Option Int :=
  if openOk then
    if readLE16At s 0 = 0x4D42 then
      (RC.ok, some (hdrW s),
        some (if hdrHRaw s < 0 then wrap32 (-hdrHRaw s) else hdrHRaw s))
    else (RC.errFormat, none, none)
  else (RC.errNotFound, none, none)

/-- Row position of the decode loops, independent of the sink kind
(`rowPos` never looks at `disp` or `loadWidth`). -/
def rowPosOf (s : Stream) (r : Nat) : Nat := rowPos (mkCfg s false 0) r

/-- Step of the transaction/transport replay: first component records
whether every seek and read so far happened with the display write
transaction closed, second component tracks the transaction state. -/
def srStep (p : Bool × Bool) (e : Ev) : Bool × Bool :=
  match e with
  | Ev.seek _ => (p.1 && !p.2, p.2)
  | Ev.readB _ _ => (p.1 && !p.2, p.2)
  | Ev.startWrite => (p.1, true)
  | Ev.endWrite => (p.1, false)
  | _ => p

/-- Trace predicate: every storage seek and read in the trace occurred
while the display write transaction was closed. -/
def srOK (evs : List Ev) : Bool := (evs.foldl srStep (true, false)).1

/-- Per-event in-bounds check for the transfer buffers: a 3-byte fetch at
`srcidx = si` must fit inside `sdbuf`, and in display mode the batch index
`di` must be below `DRAWPIXELS` and every flush must write at most
`DRAWPIXELS` pixels. -/
def c10ok (disp : Bool) (e : Ev) : Bool :=
  match e with
  | Ev.fetch si di => decide (si + 2 < bufSz) && (!disp || decide (di < DRAWPIXELS))
  | Ev.writePix n => decide (n ≤ DRAWPIXELS)
  | _ => true

/-- Recognizer for seek events. -/
def isSeekEv : Ev → Bool
  | Ev.seek _ => true
  | _ => false

/-- Recognizer for stream-open events. -/
def isOpenEv : Ev → Bool
  | Ev.openF => true
  | _ => false

/-- Recognizer for stream-close events. -/
def isCloseEv : Ev → Bool
  | Ev.closeF => true
  | _ => false

/-- Recognizer for display pixel-write events. -/
def isWritePixEv : Ev → Bool
  | Ev.writePix _ => true
  | _ => false

/-- Number of events in a trace matching `f`. -/
def countEv (f : Ev → Bool) (evs : List Ev) : Nat := (evs.filter f).length

/-- Master loop invariant: the trace so far has all seeks/reads outside the
write transaction and all buffer accesses in bounds, the replayed
transaction state matches `txn`, `srcidx` stays a multiple of 3 within the
buffer, in display mode the batch holds at most `srcidx / 3` pixels, and in
memory mode there is no transaction and no batch. -/
def Inv (disp : Bool) (st : St) : Prop :=
  st.evs.foldl srStep (true, false) = (true, st.txn) ∧
  st.evs.all (c10ok disp) = true ∧
  st.srcidx ≤ bufSz ∧
  st.srcidx % 3 = 0 ∧
  (disp = true → 3 * st.batch.length ≤ st.srcidx) ∧
  (disp = false → st.txn = false ∧ st.batch = [])

instance (disp : Bool) (st : St) : Decidable (Inv disp st) := by
  unfold Inv; exact inferInstance

/-- Two-byte little-endian encoding. -/
def le2 (v : Nat) : List Nat := [v % 256, v / 256 % 256]

/-- Four-byte little-endian encoding. -/
def le4 (v : Nat) : List Nat :=
  [v % 256, v / 256 % 256, v / 65536 % 256, v / 16777216 % 256]

/-- Stream backed by a byte list (bytes past the end read as 0). -/
def streamOf (l : List Nat) : Stream := fun i => l.getD i 0

/-- Byte image of a 24-bit uncompressed BMP file: signature, file size,
reserved, pixel-data offset 34, DIB header size 40, width and height raw
field values, 1 plane, depth 24, compression 0, then pixel data. -/
def bmpBytes (w h : Nat) (pix : List Nat) : List Nat :=
  [0x42, 0x4D] ++ le4 0 ++ le4 0 ++ le4 34 ++ le4 40 ++ le4 w ++ le4 h ++
    le2 1 ++ le2 24 ++ le4 0 ++ pix

/-- Top-down 8-wide, 1-tall BMP whose first three columns are pure red,
green, blue (in B,G,R byte order) and whose last five columns are white. -/
def c1stream : Stream := streamOf (bmpBytes 8 0xFFFFFFFF
  ([0, 0, 255, 0, 255, 0, 255, 0, 0] ++
   [255, 255, 255, 255, 255, 255, 255, 255, 255, 255, 255, 255, 255, 255, 255]))

/-- All-zero stream: its first two bytes fail the BMP signature check. -/
def c3bad : Stream := streamOf []

/-- Valid 1-by-1 BMP except that the bit-depth field holds 280 (bytes
18 01): not 24, but congruent to 24 mod 256, so the `uint8_t` comparison
accepts it; the single pixel is white. -/
def c3depth280 : Stream := streamOf
  ([0x42, 0x4D] ++ le4 0 ++ le4 0 ++ le4 34 ++ le4 40 ++ le4 1 ++ le4 1 ++
    le2 1 ++ le2 280 ++ le4 0 ++ [255, 255, 255])

/-- Valid header with width 0 and height 1: accepted by every header check
yet its load region is empty. -/
def c5zeroW : Stream := streamOf (bmpBytes 0 1 [])

/-- Valid 1-by-1 BMP with a single gray pixel. -/
def c5one : Stream := streamOf (bmpBytes 1 1 [64, 64, 64])

/-- Valid 1-by-1 BMP whose pixel is pure blue (bytes B=0xFF, G=0, R=0). -/
def c7blueS : Stream := streamOf (bmpBytes 1 1 [255, 0, 0])

/-- Valid 1-by-1 BMP whose pixel is pure green (bytes B=0, G=0xFF, R=0). -/
def c7greenS : Stream := streamOf (bmpBytes 1 1 [0, 255, 0])

/-- Valid 1-by-1 BMP whose pixel is pure red (bytes B=0, G=0, R=0xFF). -/
def c7redS : Stream := streamOf (bmpBytes 1 1 [0, 0, 255])

/-- BMP header whose signed height field holds INT32_MIN (0x80000000). -/
def c9min : Stream := streamOf (bmpBytes 5 0x80000000 [])

/-- BMP header with width 7 and height field -2 (0xFFFFFFFE). -/
def c9w : Stream := streamOf (bmpBytes 7 0xFFFFFFFE [])

theorem countEv_append (f : Ev → Bool) (a b : List Ev) :
    countEv f (a ++ b) = countEv f a + countEv f b := by
  simp [countEv, List.filter_append]

theorem refill_countEv (f : Ev → Bool) (c : Cfg) (st : St)
    (h1 : f Ev.startWrite = false) (h2 : f Ev.endWrite = false)
    (h3 : ∀ p n, f (Ev.readB p n) = false)
    (h4 : ∀ n, f (Ev.writePix n) = false) :
    countEv f (refill c st).evs = countEv f st.evs := by
  cases hc : c.disp <;>
    simp [refill, hc, countEv, List.filter_append, h1, h2, h3, h4] <;>
    split <;> simp [countEv, List.filter_append, h1, h2, h3, h4]

theorem colStep_countEv (f : Ev → Bool) (c : Cfg) (st : St)
    (h1 : f Ev.startWrite = false) (h2 : f Ev.endWrite = false)
    (h3 : ∀ p n, f (Ev.readB p n) = false)
    (h4 : ∀ n, f (Ev.writePix n) = false)
    (h5 : ∀ a b, f (Ev.fetch a b) = false) :
    countEv f (colStep c st).evs = countEv f st.evs := by
  have hr := refill_countEv f c st h1 h2 h3 h4
  cases hc : c.disp <;>
    simp [colStep, fetchPx, hc, countEv, List.filter_append, h1, h2, h3, h4, h5] <;>
    split <;>
    simp_all [refill, countEv, List.filter_append, h1, h2, h3, h4, h5]

theorem colLoop_countEv (f : Ev → Bool) (c : Cfg) (n : Nat)
    (h1 : f Ev.startWrite = false) (h2 : f Ev.endWrite = false)
    (h3 : ∀ p n, f (Ev.readB p n) = false)
    (h4 : ∀ n, f (Ev.writePix n) = false)
    (h5 : ∀ a b, f (Ev.fetch a b) = false) :
    ∀ st : St, countEv f (colLoop c n st).evs = countEv f st.evs := by
  induction n with
  | zero => intro st; rfl
  | succ m ih =>
    intro st
    rw [colLoop, ih, colStep_countEv f c st h1 h2 h3 h4 h5]

theorem rowEpi_countEv (f : Ev → Bool) (c : Cfg) (st : St)
    (h2 : f Ev.endWrite = false)
    (h4 : ∀ n, f (Ev.writePix n) = false) :
    countEv f (rowEpi c st).evs = countEv f st.evs := by
  cases hc : c.disp <;>
    simp [rowEpi, hc, countEv, List.filter_append, h2, h4] <;>
    split <;> simp [countEv, List.filter_append, h2, h4]

theorem rowPre_countEv (f : Ev → Bool) (c : Cfg) (r : Nat) (st : St)
    (h2 : f Ev.endWrite = false)
    (h6 : ∀ p, f (Ev.seek p) = false) (h7 : f Ev.yieldE = false) :
    countEv f (rowPre c r st).evs = countEv f st.evs := by
  by_cases hp : st.pos = rowPos c r <;> cases hc : c.disp <;>
    simp [rowPre, hp, hc, countEv, List.filter_append, h2, h6, h7]

theorem rowStep_countEv (f : Ev → Bool) (c : Cfg) (r : Nat) (st : St)
    (h1 : f Ev.startWrite = false) (h2 : f Ev.endWrite = false)
    (h3 : ∀ p n, f (Ev.readB p n) = false)
    (h4 : ∀ n, f (Ev.writePix n) = false)
    (h5 : ∀ a b, f (Ev.fetch a b) = false)
    (h6 : ∀ p, f (Ev.seek p) = false) (h7 : f Ev.yieldE = false) :
    countEv f (rowStep c r st).evs = countEv f st.evs := by
  rw [rowStep, rowEpi_countEv f c _ h2 h4, colLoop_countEv f c _ h1 h2 h3 h4 h5,
    rowPre_countEv f c r st h2 h6 h7]

theorem rowLoop_countEv (f : Ev → Bool) (c : Cfg) (n : Nat)
    (h1 : f Ev.startWrite = false) (h2 : f Ev.endWrite = false)
    (h3 : ∀ p n, f (Ev.readB p n) = false)
    (h4 : ∀ n, f (Ev.writePix n) = false)
    (h5 : ∀ a b, f (Ev.fetch a b) = false)
    (h6 : ∀ p, f (Ev.seek p) = false) (h7 : f Ev.yieldE = false) :
    ∀ (r : Nat) (st : St),
      countEv f (rowLoop c n r st).evs = countEv f st.evs := by
  induction n with
  | zero => intro r st; rfl
  | succ m ih =>
    intro r st
    rw [rowLoop, ih, rowStep_countEv f c r st h1 h2 h3 h4 h5 h6 h7]

theorem startTxn_countEv (f : Ev → Bool) (x y lw lh : Int) (st : St)
    (h1 : f Ev.startWrite = false)
    (h8 : ∀ a b u v, f (Ev.setWindow a b u v) = false) :
    countEv f (startTxn x y lw lh st).evs = countEv f st.evs := by
  simp [startTxn, countEv, List.filter_append, h1, h8]

theorem closeSt_countEv (f : Ev → Bool) (st : St)
    (h9 : f Ev.closeF = false) :
    countEv f (closeSt st).evs = countEv f st.evs := by
  simp [closeSt, countEv, List.filter_append, h9]

theorem refill_srcidx (c : Cfg) (st : St) : (refill c st).srcidx = 0 := by
  cases hc : c.disp <;> simp [refill, hc] <;> split <;> rfl

theorem bufSz_mod3 : bufSz % 3 = 0 := by decide

theorem refill_inv (c : Cfg) (st : St) (h : Inv c.disp st) :
    Inv c.disp (refill c st) := by
  obtain ⟨e1, e2, e3, e4, e5, e6⟩ := h
  cases hc : c.disp
  case false =>
    rw [hc] at e2
    have h6 := e6 hc
    refine ⟨?_, ?_, by simp [refill, hc], by simp [refill, hc], ?_, ?_⟩
    · simp [refill, hc, List.foldl_append, e1, srStep, h6.1]
    · simp only [List.all_eq_true] at e2
      simp [refill, hc, List.all_append, c10ok]
      exact fun x hx => by simpa [c10ok] using e2 x hx
    · intro hd; simp at hd
    · intro _; simp [refill, hc, h6.1, h6.2]
  case true =>
    rw [hc] at e2
    have hb : st.batch.length ≤ DRAWPIXELS := by
      have := e5 hc
      simp only [bufSz, DRAWPIXELS] at e3 this ⊢
      omega
    by_cases hbe : st.batch.isEmpty
    · refine ⟨?_, ?_, by simp [refill, hc, hbe], by simp [refill, hc, hbe], ?_, ?_⟩
      · simp [refill, hc, hbe, List.foldl_append, e1, srStep]
      · simp only [List.all_eq_true] at e2
        simp [refill, hc, hbe, List.all_append, c10ok]
        exact fun x hx => by simpa [c10ok] using e2 x hx
      · intro _
        simp only [List.isEmpty_iff] at hbe
        simp [refill, hc, hbe]
      · intro hd; simp at hd
    · refine ⟨?_, ?_, by simp [refill, hc, hbe], by simp [refill, hc, hbe], ?_, ?_⟩
      · simp [refill, hc, hbe, List.foldl_append, e1, srStep]
      · simp only [List.all_eq_true] at e2
        simp [refill, hc, hbe, List.all_append, c10ok, hb]
        exact fun x hx => by simpa [c10ok] using e2 x hx
      · intro _; simp [refill, hc, hbe]
      · intro hd; simp at hd

theorem bufSz_eq : bufSz = 600 := rfl

theorem DRAWPIXELS_eq : DRAWPIXELS = 200 := rfl

theorem fetchPx_inv (c : Cfg) (st1 : St) (h : Inv c.disp st1)
    (hlt : st1.srcidx < bufSz) : Inv c.disp (fetchPx c st1) := by
  obtain ⟨e1, e2, e3, e4, e5, e6⟩ := h
  rw [bufSz_eq] at hlt
  cases hc : c.disp
  case false =>
    rw [hc] at e2
    have h6 := e6 hc
    refine ⟨?_, ?_, ?_, ?_, ?_, ?_⟩
    · simp [fetchPx, hc, List.foldl_append, e1, srStep]
    · simp only [List.all_eq_true] at e2
      simp [fetchPx, hc, List.all_append, c10ok]
      refine ⟨fun x hx => by simpa [c10ok] using e2 x hx, ?_⟩
      rw [bufSz_eq]; omega
    · simp [fetchPx, hc]; rw [bufSz_eq]; omega
    · simp [fetchPx, hc]; omega
    · intro hd; simp at hd
    · intro _; simp [fetchPx, hc, h6.1, h6.2]
  case true =>
    rw [hc] at e2
    have hb := e5 hc
    refine ⟨?_, ?_, ?_, ?_, ?_, ?_⟩
    · simp [fetchPx, hc, List.foldl_append, e1, srStep]
    · simp only [List.all_eq_true] at e2
      simp [fetchPx, hc, List.all_append, c10ok]
      refine ⟨fun x hx => by simpa [c10ok] using e2 x hx, ?_, ?_⟩
      · rw [bufSz_eq]; omega
      · rw [DRAWPIXELS_eq]; omega
    · simp [fetchPx, hc]; rw [bufSz_eq]; omega
    · simp [fetchPx, hc]; omega
    · intro _; simp [fetchPx, hc]; omega
    · intro hd; simp at hd

theorem colStep_inv (c : Cfg) (st : St) (h : Inv c.disp st) :
    Inv c.disp (colStep c st) := by
  rw [colStep]
  by_cases hr : bufSz ≤ st.srcidx
  · rw [if_pos hr]
    exact fetchPx_inv c _ (refill_inv c st h) (by rw [refill_srcidx]; decide)
  · rw [if_neg hr]
    exact fetchPx_inv c st h (by omega)

theorem colLoop_inv (c : Cfg) (n : Nat) :
    ∀ st : St, Inv c.disp st → Inv c.disp (colLoop c n st) := by
  induction n with
  | zero => intro st h; exact h
  | succ m ih => intro st h; exact ih _ (colStep_inv c st h)

theorem rowPre_inv (c : Cfg) (r : Nat) (st : St) (h : Inv c.disp st) :
    Inv c.disp (rowPre c r st) := by
  obtain ⟨e1, e2, e3, e4, e5, e6⟩ := h
  by_cases hp : st.pos = rowPos c r
  · refine ⟨?_, ?_, ?_, ?_, ?_, ?_⟩
    · simp [rowPre, hp, List.foldl_append, e1, srStep]
    · simp only [List.all_eq_true] at e2
      simp [rowPre, hp, List.all_append, c10ok]
      exact fun x hx => by simpa [c10ok] using e2 x hx
    · simp [rowPre, hp]; exact e3
    · simp [rowPre, hp]; exact e4
    · intro hd; simp only [rowPre, hp]; simp; exact e5 hd
    · intro hd
      have h6 := e6 hd
      simp only [rowPre, hp]; simp [h6.1, h6.2]
  · cases hc : c.disp
    · rw [hc] at e2
      have h6 := e6 hc
      refine ⟨?_, ?_, ?_, ?_, ?_, ?_⟩
      · simp [rowPre, hp, hc, List.foldl_append, e1, srStep, h6.1]
      · simp only [List.all_eq_true] at e2
        simp [rowPre, hp, hc, List.all_append, c10ok]
        exact fun x hx => by simpa [c10ok] using e2 x hx
      · simp [rowPre, hp, hc]
      · simp [rowPre, hp, hc, bufSz_mod3]
      · intro hd; simp at hd
      · intro _; simp [rowPre, hp, hc, h6.1, h6.2]
    · rw [hc] at e2
      have hb := e5 hc
      refine ⟨?_, ?_, ?_, ?_, ?_, ?_⟩
      · simp [rowPre, hp, hc, List.foldl_append, e1, srStep]
      · simp only [List.all_eq_true] at e2
        simp [rowPre, hp, hc, List.all_append, c10ok]
        exact fun x hx => by simpa [c10ok] using e2 x hx
      · simp [rowPre, hp, hc]
      · simp [rowPre, hp, hc, bufSz_mod3]
      · intro _; simp [rowPre, hp, hc]; omega
      · intro hd; simp at hd

theorem rowEpi_inv (c : Cfg) (st : St) (h : Inv c.disp st) :
    Inv c.disp (rowEpi c st) := by
  obtain ⟨e1, e2, e3, e4, e5, e6⟩ := h
  cases hc : c.disp
  case false =>
    have hid : rowEpi c st = st := by simp [rowEpi, hc]
    rw [hc] at e2
    rw [hid]
    exact ⟨e1, e2, e3, e4, fun hd => by simp at hd, fun _ => e6 hc⟩
  case true =>
    rw [hc] at e2
    have hb := e5 hc
    by_cases hbe : st.batch.isEmpty
    · refine ⟨?_, ?_, ?_, ?_, ?_, ?_⟩
      · simp [rowEpi, hc, hbe, List.foldl_append, e1, srStep]
      · simp only [List.all_eq_true] at e2
        simp [rowEpi, hc, hbe, List.all_append, c10ok]
        exact fun x hx => by simpa [c10ok] using e2 x hx
      · simp [rowEpi, hc, hbe]; exact e3
      · simp [rowEpi, hc, hbe]; exact e4
      · intro _; simp [rowEpi, hc, hbe]; omega
      · intro hd; simp at hd
    · refine ⟨?_, ?_, ?_, ?_, ?_, ?_⟩
      · simp [rowEpi, hc, hbe, List.foldl_append, e1, srStep]
      · simp only [List.all_eq_true] at e2
        simp [rowEpi, hc, hbe, List.all_append, c10ok]
        refine ⟨fun x hx => by simpa [c10ok] using e2 x hx, ?_⟩
        rw [DRAWPIXELS_eq]; rw [bufSz_eq] at e3; omega
      · simp [rowEpi, hc, hbe]; exact e3
      · simp [rowEpi, hc, hbe]; exact e4
      · intro _; simp [rowEpi, hc, hbe]
      · intro hd; simp at hd

theorem rowStep_inv (c : Cfg) (r : Nat) (st : St) (h : Inv c.disp st) :
    Inv c.disp (rowStep c r st) :=
  rowEpi_inv c _ (colLoop_inv c c.loadWidth _ (rowPre_inv c r st h))

theorem rowLoop_inv (c : Cfg) (n : Nat) :
    ∀ (r : Nat) (st : St), Inv c.disp st → Inv c.disp (rowLoop c n r st) := by
  induction n with
  | zero => intro r st h; exact h
  | succ m ih => intro r st h; exact ih _ _ (rowStep_inv c r st h)

theorem startTxn_inv (x y lw lh : Int) (st : St) (h : Inv true st) :
    Inv true (startTxn x y lw lh st) := by
  obtain ⟨e1, e2, e3, e4, e5, e6⟩ := h
  refine ⟨?_, ?_, ?_, ?_, ?_, ?_⟩
  · simp [startTxn, List.foldl_append, e1, srStep]
  · simp only [List.all_eq_true] at e2
    simp [startTxn, List.all_append, c10ok]
    exact fun x hx => by simpa [c10ok] using e2 x hx
  · simp [startTxn]; exact e3
  · simp [startTxn]; exact e4
  · intro _; simp [startTxn]; exact e5 rfl
  · intro hd; simp at hd

theorem closeSt_inv (d : Bool) (st : St) (h : Inv d st) :
    Inv d (closeSt st) := by
  obtain ⟨e1, e2, e3, e4, e5, e6⟩ := h
  refine ⟨?_, ?_, ?_, ?_, ?_, ?_⟩
  · simp [closeSt, List.foldl_append, e1, srStep]
  · simp only [List.all_eq_true] at e2
    simp [closeSt, List.all_append, c10ok]
    exact fun x hx => by simpa [c10ok] using e2 x hx
  · simp [closeSt]; exact e3
  · simp [closeSt]; exact e4
  · intro hd; simp [closeSt]; exact e5 hd
  · intro hd
    have h6 := e6 hd
    simp [closeSt, h6.1, h6.2]

theorem inv_srOK (d : Bool) (st : St) (h : Inv d st) : srOK st.evs = true := by
  unfold srOK; rw [h.1]

theorem coreBMP_inv (s : Stream) (openOk : Bool) (sink : Sink) :
    Inv sink.isDisp (coreBMP s openOk sink).final := by
  cases sink with
  | display devW devH x0 y0 =>
    simp only [coreBMP, Sink.isDisp]
    by_cases hoff : devW ≤ x0 ∨ devH ≤ y0
    · rw [if_pos hoff]; decide
    · rw [if_neg hoff]
      cases openOk
      · simp only [Bool.false_eq_true, if_false]; decide
      · simp only [if_true]
        simp only [coreOpened]
        by_cases h1 : readLE16At s 0 = 0x4D42
        · rw [if_pos h1]
          by_cases h2 : readLE16At s 26 = 1
          · rw [if_pos h2]
            by_cases h3 : readLE16At s 28 % 256 = 24
            · rw [if_pos h3]
              by_cases h4 : readLE32At s 30 = 0
              · rw [if_pos h4]
                simp only [coreDisp]
                by_cases hreg : 0 < (clipAxis (hdrW s) x0 devW).2 ∧
                    0 < (clipAxis (normH (hdrHRaw s)) y0 devH).2
                · rw [if_pos hreg]
                  exact closeSt_inv _ _
                    (rowLoop_inv (mkCfg s true (clipAxis (hdrW s) x0 devW).2.toNat)
                      (clipAxis (normH (hdrHRaw s)) y0 devH).2.toNat 0 _
                      (startTxn_inv _ _ _ _ _ (by decide : Inv true (stAfterHdr 34))))
                · rw [if_neg hreg]; decide
              · rw [if_neg h4]; decide
            · rw [if_neg h3]; decide
          · rw [if_neg h2]; decide
        · rw [if_neg h1]; decide
  | mem allocOk =>
    simp only [coreBMP, Sink.isDisp]
    cases openOk
    · simp only [Bool.false_eq_true, if_false]; decide
    · simp only [if_true]
      simp only [coreOpened]
      by_cases h1 : readLE16At s 0 = 0x4D42
      · rw [if_pos h1]
        by_cases h2 : readLE16At s 26 = 1
        · rw [if_pos h2]
          by_cases h3 : readLE16At s 28 % 256 = 24
          · rw [if_pos h3]
            by_cases h4 : readLE32At s 30 = 0
            · rw [if_pos h4]
              cases allocOk
              · simp only [coreMem, Bool.false_eq_true, if_false]; decide
              · simp only [coreMem, if_true]
                by_cases hreg : 0 < hdrW s ∧ 0 < normH (hdrHRaw s)
                · rw [if_pos hreg]
                  exact closeSt_inv _ _
                    (rowLoop_inv (mkCfg s false (hdrW s).toNat)
                      (normH (hdrHRaw s)).toNat 0 _
                      (by decide : Inv false (stAfterHdr 34)))
                · rw [if_neg hreg]; decide
            · rw [if_neg h4]; decide
          · rw [if_neg h3]; decide
        · rw [if_neg h2]; decide
      · rw [if_neg h1]; decide

theorem refill_mem (c : Cfg) (st : St) : (refill c st).mem = st.mem := by
  cases hc : c.disp <;> simp [refill, hc] <;> split <;> rfl

theorem fetchPx_mem_len (c : Cfg) (hc : c.disp = false) (st : St) :
    (fetchPx c st).mem.length = st.mem.length + 1 := by
  simp [fetchPx, hc]

theorem colStep_mem_len (c : Cfg) (hc : c.disp = false) (st : St) :
    (colStep c st).mem.length = st.mem.length + 1 := by
  rw [colStep]
  by_cases hr : bufSz ≤ st.srcidx
  · rw [if_pos hr, fetchPx_mem_len c hc, refill_mem]
  · rw [if_neg hr, fetchPx_mem_len c hc]

theorem colLoop_mem_len (c : Cfg) (hc : c.disp = false) (n : Nat) :
    ∀ st : St, (colLoop c n st).mem.length = st.mem.length + n := by
  induction n with
  | zero => intro st; rfl
  | succ m ih =>
    intro st
    rw [colLoop, ih, colStep_mem_len c hc]
    omega

theorem rowPre_mem (c : Cfg) (r : Nat) (st : St) :
    (rowPre c r st).mem = st.mem := by
  by_cases hp : st.pos = rowPos c r <;> cases hc : c.disp <;>
    simp [rowPre, hp, hc]

theorem rowEpi_mem (c : Cfg) (st : St) : (rowEpi c st).mem = st.mem := by
  cases hc : c.disp <;> simp [rowEpi, hc] <;> split <;> rfl

theorem rowStep_mem_len (c : Cfg) (hc : c.disp = false) (r : Nat) (st : St) :
    (rowStep c r st).mem.length = st.mem.length + c.loadWidth := by
  rw [rowStep, rowEpi_mem, colLoop_mem_len c hc, rowPre_mem]

theorem rowLoop_mem_len (c : Cfg) (hc : c.disp = false) (n : Nat) :
    ∀ (r : Nat) (st : St),
      (rowLoop c n r st).mem.length = st.mem.length + n * c.loadWidth := by
  induction n with
  | zero => intro r st; simp [rowLoop]
  | succ m ih =>
    intro r st
    rw [rowLoop, ih, rowStep_mem_len c hc]
    ring

theorem readLE32At_lt (s : Stream) (p : Nat) : readLE32At s p < 2 ^ 32 := by
  unfold readLE32At byteAt
  omega

theorem toInt32_range (v : Nat) (hv : v < 2 ^ 32) :
    -(2 ^ 31) ≤ toInt32 v ∧ toInt32 v < 2 ^ 31 := by
  unfold toInt32
  split <;> omega

/-- C2: in every decode trace, every storage seek and every storage read
occurs while the display write transaction is closed — the transaction is
ended before each seek and each transfer-buffer read, and restarted only
afterward. -/
theorem claim_c2 (s : Stream) (openOk : Bool) (sink : Sink) :
    srOK (coreBMP s openOk sink).final.evs = true :=
  inv_srOK _ _ (coreBMP_inv s openOk sink)

/-- C10: throughout every decode, each 3-byte pixel fetch happens at a
source index with `srcidx + 2 < 3 * DRAWPIXELS`, in display mode the
batched destination index stays below `DRAWPIXELS` at each store and every
flush writes at most `DRAWPIXELS` pixels, and the transfer buffer size is a
multiple of 3. -/
theorem claim_c10 (s : Stream) (openOk : Bool) (sink : Sink) :
    ((coreBMP s openOk sink).final.evs).all (c10ok sink.isDisp) = true ∧
    bufSz % 3 = 0 :=
  ⟨(coreBMP_inv s openOk sink).2.1, bufSz_mod3⟩

/-- C7: the per-pixel conversion is exactly
`((R & 0xF8) << 8) | ((G & 0xFC) << 3) | ((B & 0xF8) >> 3)` applied to the
B,G,R byte triple read from the stream, and the three pure-color triples
produce 0x001F, 0x07E0 and 0xF800 at the destination (both sink kinds). -/
theorem claim_c7 :
    (∀ r g b : Nat, convert565 r g b =
      Nat.lor (Nat.lor (Nat.shiftLeft (Nat.land r 0xF8) 8)
        (Nat.shiftLeft (Nat.land g 0xFC) 3))
        (Nat.shiftRight (Nat.land b 0xF8) 3)) ∧
    (coreBMP c7blueS true (Sink.mem true)).final.mem = [0x001F] ∧
    (coreBMP c7greenS true (Sink.mem true)).final.mem = [0x07E0] ∧
    (coreBMP c7redS true (Sink.display 100 100 0 0)).final.screen = [0xF800] :=
  ⟨fun _ _ _ => rfl, by decide, by decide, by decide⟩

/-- C1 (actual behavior at the claim's scenario): decoding the 8-wide
top-down image `c1stream` to a 100x100 display at originX = -5 does produce
a load region of width 8 - 5 = 3 (the `setWindow 0 0 3 1` event), but the
pixels delivered to the display are the conversions of the three LEFTMOST
source columns (red, green, blue) — the leftmost columns are written, and
it is the rightmost 5 white columns that are dropped, contradicting the
claimed skipping of the leading columns. -/
theorem claim_c1_behavior :
    (coreBMP c1stream true (Sink.display 100 100 (-5) 0)).final.screen =
      [0xF800, 0x07E0, 0x001F] ∧
    Ev.setWindow 0 0 3 1 ∈
      (coreBMP c1stream true (Sink.display 100 100 (-5) 0)).final.evs ∧
    (coreBMP c1stream true (Sink.display 100 100 (-5) 0)).status = RC.ok :=
  ⟨by decide, by decide, by decide⟩

/-- C4: the scanline byte position used by the decode maps destination row
`r` to source row `r` when the stored height field is negative (top-down)
and to source row `bmpHeight - 1 - r` otherwise (bottom-up); the normalized
height magnitude equals the magnitude of the stored field, the `flip` flag
is cleared exactly when the stored height is negative, and the same row
mapping is used for both sink kinds and any load width. -/
theorem claim_c4 (s : Stream) (r : Nat) :
    rowPosOf s r = wrapU32 ((hdrOffset s : Int) +
      (if hdrHRaw s < 0 then (r : Int)
        else normH (hdrHRaw s) - 1 - (r : Int)) * (rowSizeOf (hdrW s) : Int)) ∧
    (normH (hdrHRaw s)).natAbs = (hdrHRaw s).natAbs ∧
    (normFlip (hdrHRaw s) = false ↔ hdrHRaw s < 0) ∧
    (∀ (disp : Bool) (lw : Nat), rowPos (mkCfg s disp lw) r = rowPosOf s r) := by
  refine ⟨?_, ?_, ?_, fun _ _ => rfl⟩
  · by_cases hneg : hdrHRaw s < 0 <;>
      simp [rowPosOf, rowPos, mkCfg, normFlip, hneg]
  · have hr := toInt32_range _ (readLE32At_lt s 22)
    have he : hdrHRaw s = toInt32 (readLE32At s 22) := rfl
    rw [← he] at hr
    unfold normH wrap32
    split <;> omega
  · simp [normFlip]

/-- C6: one scanline step issues a storage seek if and only if the stream
position differs from the computed row byte position; the seek sets the
stream position to that target and invalidates the transfer buffer
(`srcidx = sizeof sdbuf`), and every refill reads from the stream position
it was invalidated to (`bufStart` becomes the current position). -/
theorem claim_c6 (c : Cfg) (st : St) (r : Nat) :
    countEv isSeekEv (rowStep c r st).evs =
      countEv isSeekEv st.evs + (if st.pos = rowPos c r then 0 else 1) ∧
    (rowPre c r st).srcidx =
      (if st.pos = rowPos c r then st.srcidx else bufSz) ∧
    (rowPre c r st).pos = rowPos c r ∧
    (refill c st).bufStart = st.pos ∧
    Ev.readB st.pos bufSz ∈ (refill c st).evs := by
  refine ⟨?_, ?_, ?_, ?_, ?_⟩
  · rw [rowStep, rowEpi_countEv isSeekEv c _ rfl (fun _ => rfl),
      colLoop_countEv isSeekEv c _ rfl rfl (fun _ _ => rfl) (fun _ => rfl)
        (fun _ _ => rfl)]
    by_cases hp : st.pos = rowPos c r
    · simp [rowPre, hp, countEv, List.filter_append, isSeekEv]
    · cases hc : c.disp <;>
        simp [rowPre, hp, hc, countEv, List.filter_append, isSeekEv]
  · by_cases hp : st.pos = rowPos c r <;> cases hc : c.disp <;>
      simp [rowPre, hp, hc]
  · by_cases hp : st.pos = rowPos c r <;> cases hc : c.disp <;>
      simp [rowPre, hp, hc]
  · cases hc : c.disp <;> simp [refill, hc] <;> split <;> rfl
  · cases hc : c.disp <;> simp [refill, hc] <;> split <;>
      simp [List.mem_append]

theorem coreOpened_badHdr (s : Stream) (sink : Sink) (hbad : hdrOKb s = false) :
    (coreOpened s sink).status = RC.errFormat ∧
    (coreOpened s sink).final.screen = [] ∧
    (coreOpened s sink).final.mem = [] ∧
    countEv isWritePixEv (coreOpened s sink).final.evs = 0 := by
  simp only [coreOpened]
  by_cases h1 : readLE16At s 0 = 0x4D42
  · rw [if_pos h1]
    by_cases h2 : readLE16At s 26 = 1
    · rw [if_pos h2]
      by_cases h3 : readLE16At s 28 % 256 = 24
      · rw [if_pos h3]
        by_cases h4 : readLE32At s 30 = 0
        · exfalso; simp [hdrOKb, h1, h2, h3, h4] at hbad
        · rw [if_neg h4]; exact ⟨rfl, rfl, rfl, by decide⟩
      · rw [if_neg h3]; exact ⟨rfl, rfl, rfl, by decide⟩
    · rw [if_neg h2]; exact ⟨rfl, rfl, rfl, by decide⟩
  · rw [if_neg h1]; exact ⟨rfl, rfl, rfl, by decide⟩

/-- C3 (counterexample): two failures of the claim as stated. First, a
stream failing the signature check, decoded to a display at an origin past
the right edge, yields IMAGE_SUCCESS, not the claimed UnsupportedFormat —
the off-screen early exit returns before the header is ever examined.
Second, a stream whose 16-bit bit-depth field is 280 (not 24) is accepted
anyway, because the field is truncated through the `uint8_t` variable
`depth` before the comparison: the decode returns IMAGE_SUCCESS and writes
a pixel, instead of returning UnsupportedFormat with zero writes. -/
theorem claim_c3_cex :
    (hdrOKb c3bad = false ∧
      (coreBMP c3bad true (Sink.display 10 10 20 0)).status = RC.ok ∧
      (coreBMP c3bad true (Sink.display 10 10 20 0)).status ≠ RC.errFormat) ∧
    (readLE16At c3depth280 28 = 280 ∧
      (coreBMP c3depth280 true (Sink.mem true)).status = RC.ok ∧
      (coreBMP c3depth280 true (Sink.mem true)).final.mem = [0xFFFF]) :=
  ⟨⟨by decide, by decide, by decide⟩, ⟨by decide, by decide, by decide⟩⟩

/-- C3 (amended): for every opened input stream whose header fails the
signature, plane-count, bit-depth or compression check as the program
performs them (the depth comparison sees the 16-bit field truncated to its
low byte), and whose decode is not the degenerate off-screen display early
exit, decode returns UnsupportedFormat and performs zero pixel writes to
either destination. -/
theorem claim_c3_amended (s : Stream) (sink : Sink)
    (hbad : hdrOKb s = false)
    (hvis : match sink with
      | Sink.display devW devH x y => x < devW ∧ y < devH
      | Sink.mem _ => True) :
    (coreBMP s true sink).status = RC.errFormat ∧
    (coreBMP s true sink).final.screen = [] ∧
    (coreBMP s true sink).final.mem = [] ∧
    countEv isWritePixEv (coreBMP s true sink).final.evs = 0 := by
  cases sink with
  | display devW devH x y =>
    obtain ⟨hx, hy⟩ := hvis
    have hoffn : ¬(devW ≤ x ∨ devH ≤ y) := by omega
    have hred : coreBMP s true (Sink.display devW devH x y) =
        coreOpened s (Sink.display devW devH x y) := by
      simp only [coreBMP]
      rw [if_neg hoffn, if_pos trivial]
    rw [hred]
    exact coreOpened_badHdr s _ hbad
  | mem a =>
    have hred : coreBMP s true (Sink.mem a) = coreOpened s (Sink.mem a) := by
      simp only [coreBMP]
      rw [if_pos trivial]
    rw [hred]
    exact coreOpened_badHdr s _ hbad

/-- C3 (witness): the all-zero stream decoded to a memory sink. -/
theorem claim_c3_witness :
    hdrOKb c3bad = false ∧
    (coreBMP c3bad true (Sink.mem true)).status = RC.errFormat ∧
    (coreBMP c3bad true (Sink.mem true)).final.mem = [] :=
  ⟨by decide, (claim_c3_amended c3bad (Sink.mem true) (by decide) trivial).1,
    (claim_c3_amended c3bad (Sink.mem true) (by decide) trivial).2.2.1⟩

/-- C5 (counterexample): a header-accepted BMP with width 0 decoded to a
memory sink returns success, yet the format tag stays CANVAS_NONE and no
canvas is handed back — the outcome is not populated. -/
theorem claim_c5_cex :
    hdrOKb c5zeroW = true ∧
    (coreBMP c5zeroW true (Sink.mem true)).status = RC.ok ∧
    (coreBMP c5zeroW true (Sink.mem true)).fmt = CFmt.canvasNone ∧
    (coreBMP c5zeroW true (Sink.mem true)).canvas = none :=
  ⟨by decide, by decide, by decide, by decide⟩

/-- C5 (amended): for every successful memory-sink decode of an image with
positive width and height, the outcome carries the canvas with the full
untruncated dimensions and the 16-bit canvas tag, and exactly
width x height pixels are stored into it. -/
theorem claim_c5_amended (s : Stream) (hok : hdrOKb s = true)
    (hw : 0 < hdrW s) (hh : 0 < normH (hdrHRaw s)) :
    (coreBMP s true (Sink.mem true)).status = RC.ok ∧
    (coreBMP s true (Sink.mem true)).canvas =
      some (hdrW s, normH (hdrHRaw s)) ∧
    (coreBMP s true (Sink.mem true)).fmt = CFmt.canvas16 ∧
    (coreBMP s true (Sink.mem true)).final.mem.length =
      (hdrW s).toNat * (normH (hdrHRaw s)).toNat := by
  simp only [hdrOKb, Bool.and_eq_true, decide_eq_true_eq] at hok
  obtain ⟨⟨⟨h1, h2⟩, h3⟩, h4⟩ := hok
  have hred : coreBMP s true (Sink.mem true) = coreMem s true (stAfterHdr 34) := by
    simp only [coreBMP, coreOpened]
    rw [if_pos trivial, if_pos h1, if_pos h2, if_pos h3, if_pos h4]
  rw [hred]
  simp only [coreMem]
  rw [if_pos trivial, if_pos ⟨hw, hh⟩]
  refine ⟨rfl, rfl, rfl, ?_⟩
  show (closeSt (rowLoop (mkCfg s false (hdrW s).toNat)
    (normH (hdrHRaw s)).toNat 0 (stAfterHdr 34))).mem.length = _
  simp only [closeSt]
  rw [rowLoop_mem_len (mkCfg s false (hdrW s).toNat) rfl]
  simp [mkCfg, stAfterHdr, Nat.mul_comm]

/-- C5 (witness): a 1-by-1 image decoded to memory. -/
theorem claim_c5_witness :
    hdrOKb c5one = true ∧ 0 < hdrW c5one ∧ 0 < normH (hdrHRaw c5one) ∧
    (coreBMP c5one true (Sink.mem true)).canvas =
      some (hdrW c5one, normH (hdrHRaw c5one)) ∧
    (coreBMP c5one true (Sink.mem true)).fmt = CFmt.canvas16 :=
  ⟨by decide, by decide, by decide,
    (claim_c5_amended c5one (by decide) (by decide) (by decide)).2.1,
    (claim_c5_amended c5one (by decide) (by decide) (by decide)).2.2.1⟩

/-- C9 (counterexample): on a signed height field of -2^31 (bytes
00 00 00 80), `bmpDimensions` returns -2^31 itself — a negative number, not
the unsigned magnitude 2^31, because the 32-bit negation wraps. -/
theorem claim_c9_cex :
    readLE16At c9min 0 = 0x4D42 ∧
    (bmpDimensions c9min true).2.2 = some (-(2 ^ 31 : Int)) ∧
    (-(2 ^ 31 : Int)) < 0 :=
  ⟨by decide, by decide, by decide⟩

/-- C9 (amended): for every opened stream with the BMP signature whose
signed height field is not -2^31, the dimensions query succeeds with the
width field read from offset 18 and the height returned as the unsigned
magnitude of the signed field at offset 22, regardless of the plane-count,
bit-depth and compression bytes. -/
theorem claim_c9_amended (s : Stream) (hsig : readLE16At s 0 = 0x4D42)
    (hmin : hdrHRaw s ≠ -(2 ^ 31)) :
    bmpDimensions s true =
      (RC.ok, some (hdrW s), some ((hdrHRaw s).natAbs : Int)) := by
  unfold bmpDimensions
  rw [if_pos rfl, if_pos hsig]
  have hr := toInt32_range _ (readLE32At_lt s 22)
  have he : hdrHRaw s = toInt32 (readLE32At s 22) := rfl
  rw [← he] at hr
  simp only [Prod.mk.injEq, Option.some.injEq]
  refine ⟨trivial, trivial, ?_⟩
  unfold wrap32
  split <;> omega

/-- C9 (witness): a header with height field -2. -/
theorem claim_c9_witness :
    readLE16At c9w 0 = 0x4D42 ∧ hdrHRaw c9w ≠ -(2 ^ 31) ∧
    bmpDimensions c9w true =
      (RC.ok, some (hdrW c9w), some ((hdrHRaw c9w).natAbs : Int)) :=
  ⟨by decide, by decide, claim_c9_amended c9w (by decide) (by decide)⟩

theorem closeSt_closeCount (st : St) :
    countEv isCloseEv (closeSt st).evs = countEv isCloseEv st.evs + 1 := by
  simp [closeSt, countEv, List.filter_append, isCloseEv]

theorem coreOpened_counts (s : Stream) (sink : Sink) :
    countEv isCloseEv (coreOpened s sink).final.evs = 1 ∧
    countEv isOpenEv (coreOpened s sink).final.evs = 1 := by
  simp only [coreOpened]
  by_cases h1 : readLE16At s 0 = 0x4D42
  · rw [if_pos h1]
    by_cases h2 : readLE16At s 26 = 1
    · rw [if_pos h2]
      by_cases h3 : readLE16At s 28 % 256 = 24
      · rw [if_pos h3]
        by_cases h4 : readLE32At s 30 = 0
        · rw [if_pos h4]
          cases sink with
          | display devW devH x0 y0 =>
            simp only [coreDisp]
            by_cases hreg : 0 < (clipAxis (hdrW s) x0 devW).2 ∧
                0 < (clipAxis (normH (hdrHRaw s)) y0 devH).2
            · rw [if_pos hreg]
              dsimp only
              constructor
              · rw [closeSt_closeCount,
                  rowLoop_countEv isCloseEv _ _ rfl rfl (fun _ _ => rfl)
                    (fun _ => rfl) (fun _ _ => rfl) (fun _ => rfl) rfl,
                  startTxn_countEv isCloseEv _ _ _ _ _ rfl (fun _ _ _ _ => rfl)]
                decide
              · rw [closeSt_countEv isOpenEv _ rfl,
                  rowLoop_countEv isOpenEv _ _ rfl rfl (fun _ _ => rfl)
                    (fun _ => rfl) (fun _ _ => rfl) (fun _ => rfl) rfl,
                  startTxn_countEv isOpenEv _ _ _ _ _ rfl (fun _ _ _ _ => rfl)]
                decide
            · rw [if_neg hreg]; exact ⟨by decide, by decide⟩
          | mem allocOk =>
            cases allocOk
            · simp only [coreMem, Bool.false_eq_true, if_false]
              exact ⟨by decide, by decide⟩
            · simp only [coreMem, if_true]
              by_cases hreg : 0 < hdrW s ∧ 0 < normH (hdrHRaw s)
              · rw [if_pos hreg]
                dsimp only
                constructor
                · rw [closeSt_closeCount,
                    rowLoop_countEv isCloseEv _ _ rfl rfl (fun _ _ => rfl)
                      (fun _ => rfl) (fun _ _ => rfl) (fun _ => rfl) rfl]
                  decide
                · rw [closeSt_countEv isOpenEv _ rfl,
                    rowLoop_countEv isOpenEv _ _ rfl rfl (fun _ _ => rfl)
                      (fun _ => rfl) (fun _ _ => rfl) (fun _ => rfl) rfl]
                  decide
              · rw [if_neg hreg]; exact ⟨by decide, by decide⟩
        · rw [if_neg h4]; exact ⟨by decide, by decide⟩
      · rw [if_neg h3]; exact ⟨by decide, by decide⟩
    · rw [if_neg h2]; exact ⟨by decide, by decide⟩
  · rw [if_neg h1]; exact ⟨by decide, by decide⟩

/-- C8: after every decode, the number of stream-close calls equals the
number of successful stream opens and there is at most one open: whenever
the stream was opened it is closed exactly once (no leak), it is never
closed twice, and on the paths that never open it (open failure, off-screen
early exit) no close is issued. -/
theorem claim_c8 (s : Stream) (openOk : Bool) (sink : Sink) :
    countEv isCloseEv (coreBMP s openOk sink).final.evs =
      countEv isOpenEv (coreBMP s openOk sink).final.evs ∧
    countEv isOpenEv (coreBMP s openOk sink).final.evs ≤ 1 := by
  cases sink with
  | display devW devH x0 y0 =>
    simp only [coreBMP]
    by_cases hoff : devW ≤ x0 ∨ devH ≤ y0
    · rw [if_pos hoff]; exact ⟨by decide, by decide⟩
    · rw [if_neg hoff]
      cases openOk
      · simp only [Bool.false_eq_true, if_false]
        exact ⟨by decide, by decide⟩
      · simp only [if_true]
        have h := coreOpened_counts s (Sink.display devW devH x0 y0)
        rw [h.1, h.2]
        exact ⟨rfl, le_refl 1⟩
  | mem allocOk =>
    simp only [coreBMP]
    cases openOk
    · simp only [Bool.false_eq_true, if_false]
      exact ⟨by decide, by decide⟩
    · simp only [if_true]
      have h := coreOpened_counts s (Sink.mem allocOk)
      rw [h.1, h.2]
      exact ⟨rfl, le_refl 1⟩

end ImageReader
